import Mathlib

/-!
Verification of `dot_bracket_to_eff.py` (McRae-Lab/Phenix-scripts).

The script converts an RNA FASTA sequence plus a dot-bracket secondary
structure into base-pair restraint records.  We shallowly embed its pure
functions:

* `parse_dotbracket` — stack-based bracket matching over `()`, `[]`,
  `\x7b\x7d`, `<>` (one stack per bracket type), producing `(i, j)` residue
  pairs sorted by `(i, j)`;
* `infer_saenger_pair` / `infer_saenger_for_pairs` — Saenger class lookup
  for cis Watson–Crick pairs (G–C → 19, A–U → 20, G–U → 28), with
  out-of-range and non-canonical pairs warned about and given a null class;
* `format_phenix` — the Phenix `.eff` renderer.

Python ints become `Int`; `ValueError` becomes `Except ParseError`;
warnings printed to stderr become an explicitly returned `List Warning`;
a Python `IndexError` possibility in `format_phenix` (when the class list
is shorter than the pair list) becomes an `Option` result.
-/

namespace DotBracket

/-- The four bracket types `()`, `[]`, `\x7b\x7d`, `<>` supported by the parser
(the keys of the Python stack dict). -/
inductive BType where
  | paren
  | square
  | curly
  | angle
deriving DecidableEq, Repr, Fintype

/-- Opening character of each bracket type. -/
def openChar : BType → Char
  | .paren => '('
  | .square => '['
  | .curly => '\x7b'
  | .angle => '<'

/-- Closing character of each bracket type (the Python `match` dict, viewed
from the opening side). -/
def closeChar : BType → Char
  | .paren => ')'
  | .square => ']'
  | .curly => '\x7d'
  | .angle => '>'

/-- `openType c = some t` iff `c` is the opening character of type `t`
(Python's membership test against the stack dict's keys). -/
def openType (c : Char) : Option BType :=
  if c = '(' then some .paren
  else if c = '[' then some .square
  else if c = '\x7b' then some .curly
  else if c = '<' then some .angle
  else none

/-- `closeType c = some t` iff `c` is the closing character of type `t`
(Python's `c in match` test). -/
def closeType (c : Char) : Option BType :=
  if c = ')' then some .paren
  else if c = ']' then some .square
  else if c = '\x7d' then some .curly
  else if c = '>' then some .angle
  else none

/-- The characters kept by the filter `c in ".()[]\x7b\x7d<>"`. -/
def dbChars : List Char := ['.', '(', ')', '[', ']', '\x7b', '\x7d', '<', '>']

/-- Python `str.strip()`: drop leading and trailing whitespace. -/
def pyStrip (l : List Char) : List Char :=
  ((l.dropWhile Char.isWhitespace).reverse.dropWhile Char.isWhitespace).reverse

/-- `"".join(c for c in s if c in ".()[]\x7b\x7d<>")`. -/
def filterDB (l : List Char) : List Char :=
  l.filter (fun c => dbChars.contains c)

/-- Errors raised by `parse_dotbracket` (Python `ValueError`s). -/
inductive ParseError where
  | unmatchedClosing (c : Char) (idx : Int)
  | unexpectedChar (c : Char) (idx : Int)
  | unmatchedOpening (c : Char) (stack : List Int)
deriving DecidableEq, Repr

/-- The four stacks, all initially empty in the source.
Stacks are kept most-recent-first: Python `append`/`pop` at the list end
correspond to pushing/popping at the head here. -/
def emptyStacks : BType → List Int := fun _ => []

/-- Push index `i` onto the stack of type `t` (the `append(idx)` call). -/
def pushStack (st : BType → List Int) (t : BType) (i : Int) : BType → List Int :=
  fun u => if u = t then i :: st u else st u

/-- Replace the stack of type `t` by `l` (used after the `pop()` call). -/
def setStack (st : BType → List Int) (t : BType) (l : List Int) : BType → List Int :=
  fun u => if u = t then l else st u

/-- The `for idx, c in enumerate(s, start=start_resnum)` loop of
`parse_dotbracket`: push on an opening symbol, pop and record a pair on a
closing symbol, skip dots, and fail on anything else. -/
def parse_loop : List Char → Int → (BType → List Int) → List (Int × Int) →
    Except ParseError (List (Int × Int) × (BType → List Int))
  | [], _, stks, pairs => .ok (pairs, stks)
  | c :: rest, idx, stks, pairs =>
    match openType c with
    | some t => parse_loop rest (idx + 1) (pushStack stks t idx) pairs
    | none =>
      match closeType c with
      | some t =>
        match stks t with
        | [] => .error (.unmatchedClosing c idx)
        | j :: tl => parse_loop rest (idx + 1) (setStack stks t tl) (pairs ++ [(j, idx)])
      | none =>
        if c = '.' then parse_loop rest (idx + 1) stks pairs
        else .error (.unexpectedChar c idx)

/-- Insertion order of the Python stack dict, used by the final
non-empty-stack check over its items. -/
def allTypes : List BType := [.paren, .square, .curly, .angle]

/-- First bracket type whose stack is non-empty at end of input, if any. -/
def firstNonEmpty (st : BType → List Int) : Option BType :=
  allTypes.find? (fun t => !(st t).isEmpty)

/-- The sort key comparison `key=lambda x:(x[0], x[1])`: lexicographic
order on the pair. -/
def pairLE (a b : Int × Int) : Prop :=
  a.1 < b.1 ∨ (a.1 = b.1 ∧ a.2 ≤ b.2)

instance : DecidableRel pairLE := fun a b => by
  unfold pairLE; infer_instance

instance : IsTotal (Int × Int) pairLE :=
  ⟨by intro a b; unfold pairLE; omega⟩

instance : IsTrans (Int × Int) pairLE :=
  ⟨by intro a b c; unfold pairLE; omega⟩

instance {ε α : Type} [DecidableEq ε] [DecidableEq α] :
    DecidableEq (Except ε α) := fun x y =>
  match x, y with
  | .ok a, .ok b =>
    if h : a = b then .isTrue (by rw [h])
    else .isFalse (by intro hc; cases hc; exact h rfl)
  | .error a, .error b =>
    if h : a = b then .isTrue (by rw [h])
    else .isFalse (by intro hc; cases hc; exact h rfl)
  | .ok _, .error _ => .isFalse (by intro hc; cases hc)
  | .error _, .ok _ => .isFalse (by intro hc; cases hc)

/-- `parse_dotbracket(dotbracket, start_resnum)`: strip and filter the
input, run the matching loop, fail on any stack left non-empty
(reporting its contents oldest-first, as Python prints the list), and
return the pairs sorted by `(i, j)`.  Python's `list.sort` is a stable
sort; with the lexicographic key order any stable sort computes the same
list, and we use insertion sort (which is stable) for the embedding. -/
def parse_dotbracket (dotbracket : String) (start_resnum : Int := 1) :
    Except ParseError (List (Int × Int)) :=
  match parse_loop (filterDB (pyStrip dotbracket.data)) start_resnum emptyStacks [] with
  | .error e => .error e
  | .ok (pairs, stks) =>
    match firstNonEmpty stks with
    | some t => .error (.unmatchedOpening (openChar t) (stks t).reverse)
    | none => .ok (pairs.insertionSort pairLE)

end DotBracket

namespace DotBracket

/-! ### Specification-side predicates for the parser claims -/

/-- `true` iff, scanning `s` with `k` currently-unmatched openers of type
`t`, no closing symbol of type `t` ever arrives with zero openers
available (i.e. every closer has an earlier unmatched opener of the same
type). -/
def noUnder (t : BType) : List Char → Nat → Bool
  | [], _ => true
  | c :: rest, k =>
    if c = openChar t then noUnder t rest (k + 1)
    else if c = closeChar t then
      match k with
      | 0 => false
      | k' + 1 => noUnder t rest k'
    else noUnder t rest k

/-- Number of unmatched openers of type `t` after scanning `s` starting
with `k` of them (meaningful when `noUnder t s k`). -/
def finalCount (t : BType) : List Char → Nat → Nat
  | [], k => k
  | c :: rest, k =>
    if c = openChar t then finalCount t rest (k + 1)
    else if c = closeChar t then finalCount t rest (k - 1)
    else finalCount t rest k

/-- A string is balanced iff for each of the four bracket types every
closer has an earlier unmatched opener and no opener is left unmatched at
the end. -/
def balancedAll (s : List Char) : Bool :=
  allTypes.all (fun t => noUnder t s 0 && (finalCount t s 0 == 0))

/-- Number of bracket (non-dot) characters. -/
def countBrackets (s : List Char) : Nat :=
  s.countP (fun c => !(c == '.'))

/-- `true` on `.ok`, `false` on `.error`. -/
def isOkE {ε α : Type} : Except ε α → Bool
  | .ok _ => true
  | .error _ => false

/-- `true` iff the result is the `Unexpected character` error. -/
def isUnexpectedCharError {α : Type} : Except ParseError α → Bool
  | .error (.unexpectedChar _ _) => true
  | _ => false

/-- All indices currently held on the four stacks. -/
def stackIdxs (st : BType → List Int) : List Int :=
  allTypes.flatMap st

/-- All residue indices occurring in a pair list. -/
def pairIdxs (ps : List (Int × Int)) : List Int :=
  ps.flatMap (fun p => [p.1, p.2])

end DotBracket

namespace DotBracket

/-- Total number of indices on the four stacks. -/
def stacksSize (st : BType → List Int) : Nat :=
  (allTypes.map (fun t => (st t).length)).sum

end DotBracket

namespace DotBracket

/-! ### Saenger inference -/

/-- Uppercase a base letter and replace `T` by `U`
(`b.upper().replace("T","U")` on a single character). -/
def normBase (c : Char) : Char :=
  let u := c.toUpper
  if u = 'T' then 'U' else u

/-- `infer_saenger_pair(b1, b2)`: Saenger class for cis Watson–Crick base
pairs, looked up via the unordered pair of normalised bases, mirroring the
Python set comparisons against two-letter sets. -/
def infer_saenger_pair (b1 b2 : Char) : Option Nat :=
  if ({normBase b1, normBase b2} : Finset Char) = {'G', 'C'} then some 19
  else if ({normBase b1, normBase b2} : Finset Char) = {'A', 'U'} then some 20
  else if ({normBase b1, normBase b2} : Finset Char) = {'G', 'U'} then some 28
  else none

/-- Warnings printed to stderr by `infer_saenger_for_pairs`. -/
inductive Warning where
  | outOfRange (i j : Int) (n : Nat)
  | cannotInfer (b1 b2 : Char)
deriving DecidableEq, Repr

/-- The bounds check `0 <= i0 < n and 0 <= j0 < n` on the zero-based
positions of a pair. -/
def InRange (seq : List Char) (start : Int) (p : Int × Int) : Prop :=
  0 ≤ p.1 - start ∧ p.1 - start < (seq.length : Int) ∧
  0 ≤ p.2 - start ∧ p.2 - start < (seq.length : Int)

instance (seq : List Char) (start : Int) (p : Int × Int) :
    Decidable (InRange seq start p) := by
  unfold InRange; infer_instance

/-- `infer_saenger_for_pairs(pairs, seq, start_resnum)`: per pair, if its
zero-based positions are out of range, warn and record a null class;
otherwise look up the class of the two bases, warning when the lookup
fails.  The Python function prints warnings and returns the class list;
we return the class list together with the warnings in emission order. -/
def infer_saenger_for_pairs (pairs : List (Int × Int)) (seq : List Char)
    (start_resnum : Int) : List (Option Nat) × List Warning :=
  match pairs with
  | [] => ([], [])
  | p :: rest =>
    if InRange seq start_resnum p then
      (infer_saenger_pair (seq.getD (p.1 - start_resnum).toNat 'X')
          (seq.getD (p.2 - start_resnum).toNat 'X') ::
        (infer_saenger_for_pairs rest seq start_resnum).1,
       (match infer_saenger_pair (seq.getD (p.1 - start_resnum).toNat 'X')
            (seq.getD (p.2 - start_resnum).toNat 'X') with
        | none => [Warning.cannotInfer (seq.getD (p.1 - start_resnum).toNat 'X')
            (seq.getD (p.2 - start_resnum).toNat 'X')]
        | some _ => []) ++ (infer_saenger_for_pairs rest seq start_resnum).2)
    else
      (none :: (infer_saenger_for_pairs rest seq start_resnum).1,
       Warning.outOfRange p.1 p.2 seq.length ::
         (infer_saenger_for_pairs rest seq start_resnum).2)

/-- The class `infer_saenger_for_pairs` records for one pair. -/
def pairClass (seq : List Char) (start : Int) (p : Int × Int) : Option Nat :=
  if InRange seq start p then
    infer_saenger_pair (seq.getD (p.1 - start).toNat 'X')
      (seq.getD (p.2 - start).toNat 'X')
  else none


/-- The unordered pair of the two (normalised) bases is `{x, y}`. -/
def usPair (b1 b2 x y : Char) : Prop :=
  (normBase b1 = x ∧ normBase b2 = y) ∨ (normBase b1 = y ∧ normBase b2 = x)

instance (b1 b2 x y : Char) : Decidable (usPair b1 b2 x y) := by
  unfold usPair; infer_instance

end DotBracket

namespace DotBracket

/-! ### Phenix formatter -/

/-- A single quote character, used in the rendered restraint lines. -/
def sq : String := String.singleton (Char.ofNat 39)

/-- The value put on a `saenger_class` line: either an inferred class
(a Python int) or the raw override string from the command line. -/
inductive SVal where
  | num (n : Nat)
  | str (s : String)
deriving DecidableEq, Repr

/-- Render an `SVal` the way Python string-formats it. -/
def svalStr : SVal → String
  | .num n => toString n
  | .str s => s

/-- The lines one `base_pair` block contributes to the output. -/
def phenix_block (chain : String) (i j : Int) (sclass : Option SVal) :
    List String :=
  ["      base_pair \x7b",
   "        base1 = chain " ++ sq ++ chain ++ sq ++ " and resid " ++ toString i,
   "        base2 = chain " ++ sq ++ chain ++ sq ++ " and resid " ++ toString j] ++
  (match sclass with
   | some v => ["        saenger_class = " ++ svalStr v]
   | none => []) ++
  ["      \x7d"]

/-- The saenger value emitted for position `idx`: the inferred class from
`saenger_list[idx]`, replaced wholesale by the override when one is given.
`none` in the first component means the Python list access would raise
`IndexError`. -/
def phenixClassAt (saenger_list : List (Option Nat)) (override : Option String)
    (idx : Nat) : Option (Option SVal) :=
  match saenger_list.get? idx with
  | none => none
  | some s0 =>
    some (match override with
          | some o => some (.str o)
          | none => s0.map .num)

/-- The `for idx, (i,j) in enumerate(pairs)` loop of `format_phenix`,
producing the body lines; `none` when Python would raise `IndexError`
on `saenger_list[idx]`. -/
def format_phenix_loop (chain : String) :
    List (Int × Int) → Nat → List (Option Nat) → Option String →
    Option (List String)
  | [], _, _, _ => some []
  | (i, j) :: rest, idx, saenger_list, override =>
    match phenixClassAt saenger_list override idx with
    | none => none
    | some sclass =>
      match format_phenix_loop chain rest (idx + 1) saenger_list override with
      | none => none
      | some tail => some (phenix_block chain i j sclass ++ tail)

/-- Opening lines of the rendered block. -/
def phenixHeader : List String :=
  ["pdb_interpretation \x7b",
   "  secondary_structure \x7b",
   "    nucleic_acid \x7b"]

/-- Closing lines of the rendered block. -/
def phenixFooter : List String :=
  ["    \x7d",
   "  \x7d",
   "\x7d"]

/-- `format_phenix(pairs, chain, saenger_list, override)`: header, one
`base_pair` block per pair, footer, joined with newlines.  `none` models
the `IndexError` Python raises when `saenger_list` is shorter than
`pairs`. -/
def format_phenix (pairs : List (Int × Int)) (chain : String)
    (saenger_list : List (Option Nat)) (override : Option String := none) :
    Option String :=
  match format_phenix_loop chain pairs 0 saenger_list override with
  | none => none
  | some body =>
    some (String.intercalate "\n" (phenixHeader ++ body ++ phenixFooter))

end DotBracket

namespace DotBracket

/-! ### Basic character-classification lemmas -/

lemma openType_eq_some {c : Char} {t : BType} (h : openType c = some t) :
    c = openChar t := by
  unfold openType at h
  split_ifs at h <;> simp_all <;> subst h <;> rfl

lemma closeType_eq_some {c : Char} {t : BType} (h : closeType c = some t) :
    c = closeChar t := by
  unfold closeType at h
  split_ifs at h <;> simp_all <;> subst h <;> rfl

lemma openChar_ne_closeChar (t u : BType) : openChar t ≠ closeChar u := by
  cases t <;> cases u <;> decide

lemma openChar_inj {t u : BType} (h : openChar t = openChar u) : t = u := by
  cases t <;> cases u <;> simp_all <;> exact absurd h (by decide)

lemma closeChar_inj {t u : BType} (h : closeChar t = closeChar u) : t = u := by
  cases t <;> cases u <;> simp_all <;> exact absurd h (by decide)

lemma openChar_ne_dot (t : BType) : openChar t ≠ '.' := by
  cases t <;> decide

lemma closeChar_ne_dot (t : BType) : closeChar t ≠ '.' := by
  cases t <;> decide

lemma mem_allTypes (t : BType) : t ∈ allTypes := by
  cases t <;> simp [allTypes]

/-! ### Step lemmas for `parse_loop` -/

lemma parse_loop_nil {idx : Int} {st : BType → List Int} {ps : List (Int × Int)} :
    parse_loop [] idx st ps = .ok (ps, st) := rfl

lemma parse_loop_cons_open {c : Char} {t : BType} {rest : List Char} {idx : Int}
    {st : BType → List Int} {ps : List (Int × Int)} (h : openType c = some t) :
    parse_loop (c :: rest) idx st ps =
      parse_loop rest (idx + 1) (pushStack st t idx) ps := by
  simp [parse_loop, h]

lemma parse_loop_cons_close_nil {c : Char} {t : BType} {rest : List Char} {idx : Int}
    {st : BType → List Int} {ps : List (Int × Int)}
    (h1 : openType c = none) (h2 : closeType c = some t) (h3 : st t = []) :
    parse_loop (c :: rest) idx st ps = .error (.unmatchedClosing c idx) := by
  simp [parse_loop, h1, h2, h3]

lemma parse_loop_cons_close_cons {c : Char} {t : BType} {rest : List Char} {idx : Int}
    {st : BType → List Int} {ps : List (Int × Int)} {j : Int} {tl : List Int}
    (h1 : openType c = none) (h2 : closeType c = some t) (h3 : st t = j :: tl) :
    parse_loop (c :: rest) idx st ps =
      parse_loop rest (idx + 1) (setStack st t tl) (ps ++ [(j, idx)]) := by
  simp [parse_loop, h1, h2, h3]

lemma parse_loop_cons_dot {c : Char} {rest : List Char} {idx : Int}
    {st : BType → List Int} {ps : List (Int × Int)}
    (h1 : openType c = none) (h2 : closeType c = none) (h3 : c = '.') :
    parse_loop (c :: rest) idx st ps = parse_loop rest (idx + 1) st ps := by
  subst h3; rfl

lemma parse_loop_cons_other {c : Char} {rest : List Char} {idx : Int}
    {st : BType → List Int} {ps : List (Int × Int)}
    (h1 : openType c = none) (h2 : closeType c = none) (h3 : c ≠ '.') :
    parse_loop (c :: rest) idx st ps = .error (.unexpectedChar c idx) := by
  simp [parse_loop, h1, h2, h3]

/-! ### Stack-size bookkeeping -/


lemma stacksSize_empty : stacksSize emptyStacks = 0 := rfl

lemma stacksSize_push (st : BType → List Int) (t : BType) (i : Int) :
    stacksSize (pushStack st t i) = stacksSize st + 1 := by
  cases t <;> simp [stacksSize, allTypes, pushStack] <;> omega

lemma stacksSize_set_pop {st : BType → List Int} {t : BType} {j : Int}
    {tl : List Int} (h : st t = j :: tl) :
    stacksSize (setStack st t tl) + 1 = stacksSize st := by
  cases t <;> simp [stacksSize, allTypes, setStack, h] <;> omega

lemma pushStack_len (st : BType → List Int) (t u : BType) (i : Int) :
    ((pushStack st t i) u).length =
      if u = t then (st u).length + 1 else (st u).length := by
  unfold pushStack; split <;> simp

lemma setStack_len_pop {st : BType → List Int} {t : BType} {j : Int}
    {tl : List Int} (h : st t = j :: tl) (u : BType) :
    ((setStack st t tl) u).length =
      if u = t then (st u).length - 1 else (st u).length := by
  unfold setStack; split
  · rename_i hu; subst hu; simp [h]
  · simp

/-- Bookkeeping invariant: along a successful run of the loop, twice the
number of recorded pairs plus the number of stacked indices grows by
exactly the number of bracket characters consumed. -/
lemma parse_loop_count :
    ∀ (s : List Char) (idx : Int) (st : BType → List Int) (ps pr : List (Int × Int))
      (st' : BType → List Int),
      parse_loop s idx st ps = .ok (pr, st') →
      2 * pr.length + stacksSize st' = 2 * ps.length + stacksSize st + countBrackets s
  | [], idx, st, ps, pr, st', h => by
    rw [parse_loop_nil] at h
    cases h
    simp [countBrackets]
  | c :: rest, idx, st, ps, pr, st', h => by
    rcases ho : openType c with _ | t
    · rcases hc : closeType c with _ | t
      · by_cases hd : c = '.'
        · rw [parse_loop_cons_dot ho hc hd] at h
          have ih := parse_loop_count rest (idx + 1) st ps pr st' h
          subst hd
          simpa [countBrackets] using ih
        · rw [parse_loop_cons_other ho hc hd] at h
          cases h
      · rcases hs : st t with _ | ⟨j, tl⟩
        · rw [parse_loop_cons_close_nil ho hc hs] at h
          cases h
        · rw [parse_loop_cons_close_cons ho hc hs] at h
          have ih := parse_loop_count rest (idx + 1) (setStack st t tl)
            (ps ++ [(j, idx)]) pr st' h
          have hcc : c = closeChar t := closeType_eq_some hc
          have hsz := stacksSize_set_pop hs
          have hb : (c == '.') = false := by
            rw [hcc]; exact beq_eq_false_iff_ne.mpr (closeChar_ne_dot t)
          simp [countBrackets, List.countP_cons, hb] at ih ⊢
          omega
    · rw [parse_loop_cons_open ho] at h
      have ih := parse_loop_count rest (idx + 1) (pushStack st t idx) ps pr st' h
      have hoc : c = openChar t := openType_eq_some ho
      have hsz := stacksSize_push st t idx
      have hb : (c == '.') = false := by
        rw [hoc]; exact beq_eq_false_iff_ne.mpr (openChar_ne_dot t)
      simp [countBrackets, List.countP_cons, hb] at ih ⊢
      omega

/-! ### Reduction lemmas for the per-type counters -/

lemma noUnder_cons_open {t : BType} {c : Char} {rest : List Char} {k : Nat}
    (h : c = openChar t) : noUnder t (c :: rest) k = noUnder t rest (k + 1) := by
  simp [noUnder, h]

lemma noUnder_cons_close {t : BType} {c : Char} {rest : List Char} {k : Nat}
    (h : c = closeChar t) :
    noUnder t (c :: rest) (k + 1) = noUnder t rest k := by
  subst h
  have hne : closeChar t ≠ openChar t := fun hh => openChar_ne_closeChar t t hh.symm
  simp [noUnder, hne]

lemma noUnder_cons_close_zero {t : BType} {c : Char} {rest : List Char}
    (h : c = closeChar t) : noUnder t (c :: rest) 0 = false := by
  subst h
  have hne : closeChar t ≠ openChar t := fun hh => openChar_ne_closeChar t t hh.symm
  simp [noUnder, hne]

lemma noUnder_cons_skip {t : BType} {c : Char} {rest : List Char} {k : Nat}
    (h1 : c ≠ openChar t) (h2 : c ≠ closeChar t) :
    noUnder t (c :: rest) k = noUnder t rest k := by
  simp [noUnder, h1, h2]

lemma finalCount_cons_open {t : BType} {c : Char} {rest : List Char} {k : Nat}
    (h : c = openChar t) :
    finalCount t (c :: rest) k = finalCount t rest (k + 1) := by
  simp [finalCount, h]

lemma finalCount_cons_close {t : BType} {c : Char} {rest : List Char} {k : Nat}
    (h : c = closeChar t) :
    finalCount t (c :: rest) k = finalCount t rest (k - 1) := by
  subst h
  have hne : closeChar t ≠ openChar t := fun hh => openChar_ne_closeChar t t hh.symm
  simp [finalCount, hne]

lemma finalCount_cons_skip {t : BType} {c : Char} {rest : List Char} {k : Nat}
    (h1 : c ≠ openChar t) (h2 : c ≠ closeChar t) :
    finalCount t (c :: rest) k = finalCount t rest k := by
  simp [finalCount, h1, h2]

/-- An open character of type `t` is neither the opener (for `u ≠ t`) nor
the closer (for any `u`) of another type. -/
lemma open_skip {c : Char} {t u : BType} (hc : c = openChar t) (hne : u ≠ t) :
    c ≠ openChar u ∧ c ≠ closeChar u := by
  subst hc
  exact ⟨fun h => hne (openChar_inj h).symm, openChar_ne_closeChar t u⟩

lemma close_skip {c : Char} {t u : BType} (hc : c = closeChar t) (hne : u ≠ t) :
    c ≠ openChar u ∧ c ≠ closeChar u := by
  subst hc
  exact ⟨fun h => (openChar_ne_closeChar u t) h.symm,
    fun h => hne (closeChar_inj h).symm⟩

lemma dot_skip {c : Char} (hc : c = '.') (u : BType) :
    c ≠ openChar u ∧ c ≠ closeChar u := by
  subst hc
  exact ⟨(openChar_ne_dot u).symm ∘ Eq.symm ∘ Eq.symm, (closeChar_ne_dot u).symm ∘ Eq.symm ∘ Eq.symm⟩

/-- Any character kept by the filter is a dot, an opener, or a closer. -/
lemma dbChars_classify {c : Char} (h : c ∈ dbChars) :
    c = '.' ∨ (∃ t, openType c = some t) ∨ (∃ t, closeType c = some t) := by
  simp [dbChars] at h
  rcases h with rfl | rfl | rfl | rfl | rfl | rfl | rfl | rfl | rfl <;>
    simp [openType, closeType]

/-- Stack lengths along a successful run of the loop follow the per-type
counter scan. -/
lemma parse_loop_stackLen :
    ∀ (s : List Char) (idx : Int) (st : BType → List Int) (ps pr : List (Int × Int))
      (st' : BType → List Int),
      parse_loop s idx st ps = .ok (pr, st') →
      ∀ u, (st' u).length = finalCount u s (st u).length
  | [], idx, st, ps, pr, st', h => by
    rw [parse_loop_nil] at h
    cases h
    intro u
    simp [finalCount]
  | c :: rest, idx, st, ps, pr, st', h => by
    rcases ho : openType c with _ | t
    · rcases hc : closeType c with _ | t
      · by_cases hd : c = '.'
        · rw [parse_loop_cons_dot ho hc hd] at h
          intro u
          have ih := parse_loop_stackLen rest (idx + 1) st ps pr st' h u
          rw [ih, finalCount_cons_skip (dot_skip hd u).1 (dot_skip hd u).2]
        · rw [parse_loop_cons_other ho hc hd] at h
          cases h
      · rcases hs : st t with _ | ⟨j, tl⟩
        · rw [parse_loop_cons_close_nil ho hc hs] at h
          cases h
        · rw [parse_loop_cons_close_cons ho hc hs] at h
          intro u
          have ih := parse_loop_stackLen rest (idx + 1) (setStack st t tl)
            (ps ++ [(j, idx)]) pr st' h u
          have hcc : c = closeChar t := closeType_eq_some hc
          rw [ih, setStack_len_pop hs u]
          by_cases hu : u = t
          · subst hu
            rw [finalCount_cons_close hcc]
            simp
          · rw [finalCount_cons_skip (close_skip hcc hu).1 (close_skip hcc hu).2]
            simp [hu]
    · rw [parse_loop_cons_open ho] at h
      intro u
      have ih := parse_loop_stackLen rest (idx + 1) (pushStack st t idx) ps pr st' h u
      have hoc : c = openChar t := openType_eq_some ho
      rw [ih, pushStack_len st t u idx]
      by_cases hu : u = t
      · subst hu
        rw [finalCount_cons_open hoc]
        simp
      · rw [finalCount_cons_skip (open_skip hoc hu).1 (open_skip hoc hu).2]
        simp [hu]

/-- The loop succeeds exactly when, for every bracket type, no closing
symbol arrives with an empty stack of that type. -/
lemma parse_loop_ok_iff :
    ∀ (s : List Char) (idx : Int) (st : BType → List Int) (ps : List (Int × Int)),
      (∀ c ∈ s, c ∈ dbChars) →
      (isOkE (parse_loop s idx st ps) = true ↔
        ∀ u, noUnder u s (st u).length = true)
  | [], idx, st, ps, _ => by
    rw [parse_loop_nil]
    simp [isOkE, noUnder]
  | c :: rest, idx, st, ps, hall => by
    have hrest : ∀ c ∈ rest, c ∈ dbChars := fun x hx => hall x (List.mem_cons_of_mem c hx)
    have hcmem : c ∈ dbChars := hall c (List.mem_cons_self c rest)
    rcases ho : openType c with _ | t
    · rcases hc : closeType c with _ | t
      · have hd : c = '.' := by
          rcases dbChars_classify hcmem with hd | ⟨t, ht⟩ | ⟨t, ht⟩
          · exact hd
          · rw [ho] at ht; cases ht
          · rw [hc] at ht; cases ht
        rw [parse_loop_cons_dot ho hc hd]
        rw [parse_loop_ok_iff rest (idx + 1) st ps hrest]
        constructor
        · intro h u
          rw [noUnder_cons_skip (dot_skip hd u).1 (dot_skip hd u).2]
          exact h u
        · intro h u
          have := h u
          rwa [noUnder_cons_skip (dot_skip hd u).1 (dot_skip hd u).2] at this
      · have hcc : c = closeChar t := closeType_eq_some hc
        rcases hs : st t with _ | ⟨j, tl⟩
        · rw [parse_loop_cons_close_nil ho hc hs]
          simp only [isOkE]
          constructor
          · intro h; cases h
          · intro h
            have := h t
            rw [hs] at this
            simp only [List.length_nil] at this
            rw [noUnder_cons_close_zero hcc] at this
            cases this
        · rw [parse_loop_cons_close_cons ho hc hs]
          rw [parse_loop_ok_iff rest (idx + 1) (setStack st t tl) (ps ++ [(j, idx)]) hrest]
          have key : ∀ u, noUnder u (c :: rest) (st u).length =
              noUnder u rest ((setStack st t tl u).length) := by
            intro u
            by_cases hu : u = t
            · subst hu
              rw [hs]
              simp only [List.length_cons]
              rw [noUnder_cons_close hcc]
              simp [setStack]
            · rw [noUnder_cons_skip (close_skip hcc hu).1 (close_skip hcc hu).2]
              simp [setStack, hu]
          constructor
          · intro h u; rw [key u]; exact h u
          · intro h u; have := h u; rwa [key u] at this
    · have hoc : c = openChar t := openType_eq_some ho
      rw [parse_loop_cons_open ho]
      rw [parse_loop_ok_iff rest (idx + 1) (pushStack st t idx) ps hrest]
      have key : ∀ u, noUnder u (c :: rest) (st u).length =
          noUnder u rest ((pushStack st t idx u).length) := by
        intro u
        by_cases hu : u = t
        · subst hu
          rw [noUnder_cons_open hoc]
          simp [pushStack]
        · rw [noUnder_cons_skip (open_skip hoc hu).1 (open_skip hoc hu).2]
          simp [pushStack, hu]
      constructor
      · intro h u; rw [key u]; exact h u
      · intro h u; have := h u; rwa [key u] at this

/-! ### Assembling `parse_dotbracket` facts -/

lemma filterDB_mem {l : List Char} : ∀ c ∈ filterDB l, c ∈ dbChars := by
  intro c hc
  rw [filterDB, List.mem_filter] at hc
  simpa using hc.2

lemma isOkE_eq_true_iff {ε α : Type} {e : Except ε α} :
    isOkE e = true ↔ ∃ a, e = .ok a := by
  cases e <;> simp [isOkE]

lemma stacksSize_eq_zero {st : BType → List Int}
    (h : ∀ t, (st t).length = 0) : stacksSize st = 0 := by
  simp [stacksSize, allTypes, h]

/-- Core characterization: `parse_dotbracket` succeeds exactly on inputs
whose filtered form is balanced for every bracket type. -/
lemma parse_dotbracket_isOk_eq (s : String) (start : Int) :
    isOkE (parse_dotbracket s start) = balancedAll (filterDB (pyStrip s.data)) := by
  have hmem : ∀ c ∈ filterDB (pyStrip s.data), c ∈ dbChars := filterDB_mem
  have hok := parse_loop_ok_iff (filterDB (pyStrip s.data)) start emptyStacks [] hmem
  rw [Bool.eq_iff_iff]
  unfold parse_dotbracket
  rcases hp : parse_loop (filterDB (pyStrip s.data)) start emptyStacks [] with e | ⟨pairs, stks⟩
  · rw [hp] at hok
    simp only [hp, isOkE] at hok ⊢
    constructor
    · intro h; cases h
    · intro hb
      exfalso
      have hall : ∀ u, noUnder u (filterDB (pyStrip s.data)) (emptyStacks u).length = true := by
        intro u
        have := List.all_eq_true.mp hb u (mem_allTypes u)
        have hn := (Bool.and_eq_true _ _).mp this |>.1
        simpa [emptyStacks] using hn
      simpa using hok.mpr hall
  · have hlen := parse_loop_stackLen _ _ _ _ _ _ hp
    rw [hp] at hok
    simp only [isOkE] at hok
    rcases hf : firstNonEmpty stks with _ | t
    · -- all stacks empty at the end
      have hempty : ∀ t, (stks t).length = 0 := by
        intro t
        have := List.find?_eq_none.mp hf t (mem_allTypes t)
        simp at this
        simp [this]
      simp only [hp, hf, isOkE]
      constructor
      · intro _
        apply List.all_eq_true.mpr
        intro t _
        apply (Bool.and_eq_true _ _).mpr
        constructor
        · have := hok.mp trivial t
          simpa [emptyStacks] using this
        · have := hlen t
          simp [emptyStacks] at this
          simp [← this, hempty t]
      · intro _; trivial
    · -- some stack is non-empty at the end
      have hpt : (stks t).length ≠ 0 := by
        have := List.find?_some hf
        simp [List.isEmpty_iff] at this
        simpa [List.length_eq_zero] using this
      simp only [hp, hf, isOkE]
      constructor
      · intro h; cases h
      · intro hb
        exfalso
        have := List.all_eq_true.mp hb t (mem_allTypes t)
        have hfin := (Bool.and_eq_true _ _).mp this |>.2
        have := hlen t
        simp [emptyStacks] at this
        rw [← this] at hfin
        simp at hfin
        exact hpt (by simp [hfin])

lemma firstNonEmpty_none_lengths {st : BType → List Int}
    (h : firstNonEmpty st = none) : ∀ t, (st t).length = 0 := by
  intro t
  have := List.find?_eq_none.mp h t (mem_allTypes t)
  simp at this
  simp [this]

/-- Anatomy of a successful parse: the loop succeeded, every stack ended
empty, and the result is the sorted pair list of the loop. -/
lemma parse_dotbracket_ok_elim {s : String} {start : Int} {ps : List (Int × Int)}
    (h : parse_dotbracket s start = .ok ps) :
    ∃ pairs stks,
      parse_loop (filterDB (pyStrip s.data)) start emptyStacks [] = .ok (pairs, stks) ∧
      firstNonEmpty stks = none ∧
      ps = pairs.insertionSort pairLE := by
  unfold parse_dotbracket at h
  rcases hp : parse_loop (filterDB (pyStrip s.data)) start emptyStacks [] with e | ⟨pairs, stks⟩
  · simp only [hp] at h
    cases h
  · simp only [hp] at h
    rcases hf : firstNonEmpty stks with _ | t
    · simp only [hf, Except.ok.injEq] at h
      exact ⟨pairs, stks, rfl, hf, h.symm⟩
    · simp only [hf] at h
      cases h

end DotBracket


namespace DotBracket

/-! ## Claim theorems -/

/-- **C1** — For every balanced dot-bracket string (for each of the four
bracket types, the per-type scan never underflows and ends with no open
bracket), `parse_dotbracket` succeeds and returns a list of pairs whose
length is half the number of bracket (non-dot) characters of the filtered
input. -/
theorem C1_balanced_pair_count (s : String) (start : Int)
    (hb : balancedAll (filterDB (pyStrip s.data)) = true) :
    ∃ ps, parse_dotbracket s start = .ok ps ∧
      2 * ps.length = countBrackets (filterDB (pyStrip s.data)) := by
  have hiso := parse_dotbracket_isOk_eq s start
  rw [hb] at hiso
  obtain ⟨ps, hps⟩ := isOkE_eq_true_iff.mp hiso
  obtain ⟨pairs, stks, hp, hf, hsort⟩ := parse_dotbracket_ok_elim hps
  have hcount := parse_loop_count _ _ _ _ _ _ hp
  have hzero : stacksSize stks = 0 := stacksSize_eq_zero (firstNonEmpty_none_lengths hf)
  refine ⟨ps, hps, ?_⟩
  rw [hsort, List.length_insertionSort]
  simp [stacksSize_empty, hzero] at hcount
  omega

/-- Witness for C1 at the concrete balanced input `"((.))"`. -/
theorem C1_balanced_pair_count_witness :
    ∃ ps, parse_dotbracket "((.))" 1 = .ok ps ∧
      2 * ps.length = countBrackets (filterDB (pyStrip "((.))".data)) :=
  C1_balanced_pair_count "((.))" 1 (by decide)

/-- **C2** — `parse_dotbracket` on `"((.))"` with `start_resnum = 1`
returns exactly the pairs `(1, 5)` and `(2, 4)`. -/
theorem C2_concrete_pairs : parse_dotbracket "((.))" 1 = .ok [(1, 5), (2, 4)] := by
  decide

/-- **C3** — `parse_dotbracket` fails exactly when, for some bracket
type, either a closing symbol arrives with no earlier unmatched opening
symbol of that type (`noUnder … = false`) or openers remain unmatched at
end of input (`finalCount … ≠ 0`); in particular `"(()"` raises, with the
opener at residue 1 left unmatched. -/
theorem C3_error_iff :
    (∀ (s : String) (start : Int),
      isOkE (parse_dotbracket s start) = false ↔
        ∃ t, noUnder t (filterDB (pyStrip s.data)) 0 = false ∨
          finalCount t (filterDB (pyStrip s.data)) 0 ≠ 0) ∧
    parse_dotbracket "(()" 1 = .error (.unmatchedOpening '(' [1]) := by
  constructor
  · intro s start
    rw [parse_dotbracket_isOk_eq s start]
    constructor
    · intro h
      rcases List.all_eq_false.mp h with ⟨t, _, ht⟩
      refine ⟨t, ?_⟩
      simp only [Bool.and_eq_true, beq_iff_eq, not_and_or, Bool.not_eq_true] at ht
      exact ht
    · intro ⟨t, ht⟩
      apply List.all_eq_false.mpr
      refine ⟨t, mem_allTypes t, ?_⟩
      simp only [Bool.and_eq_true, beq_iff_eq, not_and_or, Bool.not_eq_true]
      exact ht
  · decide

end DotBracket

namespace DotBracket

/-! ### Filter invariance (claim C9) -/

/-- Filtering absorbs a `dropWhile` that only removes rejected characters. -/
lemma filter_dropWhile_of_excl {p q : Char → Bool}
    (hpq : ∀ c, q c = true → p c = false) :
    ∀ l : List Char, (l.dropWhile q).filter p = l.filter p := by
  intro l
  induction l with
  | nil => rfl
  | cons c r ih =>
    rw [List.dropWhile_cons]
    by_cases hq : q c = true
    · rw [if_pos hq, ih, List.filter_cons, hpq c hq]
      simp
    · rw [if_neg hq]

lemma whitespace_not_db (c : Char) (h : c.isWhitespace = true) :
    dbChars.contains c = false := by
  have hd : c = ' ' ∨ c = '\t' ∨ c = '\x0d' ∨ c = '\n' := by
    revert h
    unfold Char.isWhitespace
    intro h
    rcases Decidable.em (c = ' ') with h1 | h1
    · exact Or.inl h1
    rcases Decidable.em (c = '\t') with h2 | h2
    · exact Or.inr (Or.inl h2)
    rcases Decidable.em (c = '\x0d') with h3 | h3
    · exact Or.inr (Or.inr (Or.inl h3))
    rcases Decidable.em (c = '\n') with h4 | h4
    · exact Or.inr (Or.inr (Or.inr h4))
    · simp [h1, h2, h3, h4] at h
  rcases hd with rfl | rfl | rfl | rfl <;> decide

/-- Stripping whitespace before the dot-bracket filter changes nothing. -/
lemma filterDB_pyStrip (l : List Char) : filterDB (pyStrip l) = filterDB l := by
  unfold pyStrip filterDB
  rw [List.filter_reverse, filter_dropWhile_of_excl whitespace_not_db,
    List.filter_reverse, List.reverse_reverse,
    filter_dropWhile_of_excl whitespace_not_db]

/-- The dot-bracket filter is idempotent. -/
lemma filterDB_idem (l : List Char) : filterDB (filterDB l) = filterDB l := by
  unfold filterDB
  rw [List.filter_filter]
  congr 1
  funext c
  rw [Bool.and_self]

/-- Along input made only of kept characters, the loop never reaches the
`Unexpected character` branch. -/
lemma parse_loop_no_unexpected :
    ∀ (s : List Char) (idx : Int) (st : BType → List Int) (ps : List (Int × Int)),
      (∀ c ∈ s, c ∈ dbChars) →
      isUnexpectedCharError (parse_loop s idx st ps) = false
  | [], idx, st, ps, _ => by
    rw [parse_loop_nil]; rfl
  | c :: rest, idx, st, ps, hall => by
    have hrest : ∀ c ∈ rest, c ∈ dbChars := fun x hx => hall x (List.mem_cons_of_mem c hx)
    have hcmem : c ∈ dbChars := hall c (List.mem_cons_self c rest)
    rcases ho : openType c with _ | t
    · rcases hc : closeType c with _ | t
      · have hd : c = '.' := by
          rcases dbChars_classify hcmem with hd | ⟨t, ht⟩ | ⟨t, ht⟩
          · exact hd
          · rw [ho] at ht; cases ht
          · rw [hc] at ht; cases ht
        rw [parse_loop_cons_dot ho hc hd]
        exact parse_loop_no_unexpected rest (idx + 1) st ps hrest
      · rcases hs : st t with _ | ⟨j, tl⟩
        · rw [parse_loop_cons_close_nil ho hc hs]; rfl
        · rw [parse_loop_cons_close_cons ho hc hs]
          exact parse_loop_no_unexpected rest (idx + 1) (setStack st t tl)
            (ps ++ [(j, idx)]) hrest
    · rw [parse_loop_cons_open ho]
      exact parse_loop_no_unexpected rest (idx + 1) (pushStack st t idx) ps hrest

/-- **C9** — Foreign characters never cause a rejection: parsing any
string gives the same result as parsing its filtered form, and the
`Unexpected character` error branch is unreachable. -/
theorem C9_filter_invariance (s : String) (start : Int) :
    parse_dotbracket s start =
      parse_dotbracket (String.mk (filterDB s.data)) start ∧
    isUnexpectedCharError (parse_dotbracket s start) = false := by
  constructor
  · unfold parse_dotbracket
    have : filterDB (pyStrip (String.mk (filterDB s.data)).data) =
        filterDB (pyStrip s.data) := by
      show filterDB (pyStrip (filterDB s.data)) = filterDB (pyStrip s.data)
      rw [filterDB_pyStrip, filterDB_idem, filterDB_pyStrip]
    rw [this]
  · unfold parse_dotbracket
    rcases hp : parse_loop (filterDB (pyStrip s.data)) start emptyStacks [] with e | ⟨pairs, stks⟩
    · have hne := parse_loop_no_unexpected (filterDB (pyStrip s.data)) start emptyStacks [] filterDB_mem
      rw [hp] at hne
      simp only [hp]
      cases e with
      | unexpectedChar c i => simp [isUnexpectedCharError] at hne
      | unmatchedClosing c i => rfl
      | unmatchedOpening c l => rfl
    · simp only [hp]
      rcases hf : firstNonEmpty stks with _ | t <;> simp only [hf] <;> rfl

end DotBracket

namespace DotBracket

/-! ### Index bookkeeping: bounds, distinctness and pair order -/

open List

lemma append_perm_cons {l₁ l₂ l₃ : List Int} {a : Int} (h : l₂ ~ a :: l₃) :
    l₁ ++ l₂ ~ a :: (l₁ ++ l₃) :=
  (List.Perm.append_left l₁ h).trans List.perm_middle

lemma stackIdxs_push (st : BType → List Int) (u : BType) (i : Int) :
    stackIdxs (pushStack st u i) ~ i :: stackIdxs st := by
  cases u <;>
    simp only [stackIdxs, allTypes, pushStack, List.flatMap_cons, List.flatMap_nil,
      List.append_nil, if_true, if_false, reduceCtorEq, reduceIte] <;>
    first
      | exact List.Perm.refl _
      | exact append_perm_cons (List.Perm.refl _)
      | exact append_perm_cons (append_perm_cons (List.Perm.refl _))
      | exact append_perm_cons (append_perm_cons (append_perm_cons (List.Perm.refl _)))

lemma stackIdxs_pop {st : BType → List Int} {u : BType} {j : Int} {tl : List Int}
    (h : st u = j :: tl) : stackIdxs st ~ j :: stackIdxs (setStack st u tl) := by
  cases u <;>
    simp only [stackIdxs, allTypes, setStack, List.flatMap_cons, List.flatMap_nil,
      List.append_nil, if_true, if_false, reduceCtorEq, reduceIte, h] <;>
    first
      | exact List.Perm.refl _
      | exact append_perm_cons (List.Perm.refl _)
      | exact append_perm_cons (append_perm_cons (List.Perm.refl _))
      | exact append_perm_cons (append_perm_cons (append_perm_cons (List.Perm.refl _)))

lemma pairIdxs_append (l₁ l₂ : List (Int × Int)) :
    pairIdxs (l₁ ++ l₂) = pairIdxs l₁ ++ pairIdxs l₂ := by
  simp [pairIdxs]

lemma stackIdxs_empty : stackIdxs emptyStacks = [] := rfl

/-- Main invariant of the matching loop: indices on the stacks and in the
recorded pairs stay within `[lo, idx)`, remain pairwise distinct, and every
recorded pair is ordered. -/
lemma parse_loop_inv (lo : Int) :
    ∀ (s : List Char) (idx : Int) (st : BType → List Int) (ps pr : List (Int × Int))
      (st' : BType → List Int),
      parse_loop s idx st ps = .ok (pr, st') →
      lo ≤ idx →
      (∀ x ∈ stackIdxs st ++ pairIdxs ps, lo ≤ x ∧ x < idx) →
      (stackIdxs st ++ pairIdxs ps).Nodup →
      (∀ p ∈ ps, p.1 < p.2) →
      (∀ x ∈ stackIdxs st' ++ pairIdxs pr, lo ≤ x ∧ x < idx + (s.length : Int)) ∧
      (stackIdxs st' ++ pairIdxs pr).Nodup ∧
      (∀ p ∈ pr, p.1 < p.2)
  | [], idx, st, ps, pr, st', h => by
    intro _ hbnd hnd hord
    rw [parse_loop_nil] at h
    cases h
    refine ⟨?_, hnd, hord⟩
    intro x hx
    have := hbnd x hx
    simp only [List.length_nil]
    omega
  | c :: rest, idx, st, ps, pr, st', h => by
    intro hlo hbnd hnd hord
    rcases ho : openType c with _ | t
    · rcases hc : closeType c with _ | t
      · by_cases hd : c = '.'
        · rw [parse_loop_cons_dot ho hc hd] at h
          have ih := parse_loop_inv lo rest (idx + 1) st ps pr st' h
            (by omega)
            (fun x hx => by have := hbnd x hx; omega)
            hnd hord
          refine ⟨?_, ih.2.1, ih.2.2⟩
          intro x hx
          have := ih.1 x hx
          simp only [List.length_cons] at *
          push_cast at *
          omega
        · rw [parse_loop_cons_other ho hc hd] at h
          cases h
      · rcases hs : st t with _ | ⟨j, tl⟩
        · rw [parse_loop_cons_close_nil ho hc hs] at h
          cases h
        · rw [parse_loop_cons_close_cons ho hc hs] at h
          -- the popped index j is on the stacks, hence bounded and distinct
          have hperm : stackIdxs st ~ j :: stackIdxs (setStack st t tl) :=
            stackIdxs_pop hs
          have hpermA : stackIdxs st ++ pairIdxs ps ~
              j :: (stackIdxs (setStack st t tl) ++ pairIdxs ps) :=
            List.Perm.append_right (pairIdxs ps) hperm
          have hj : lo ≤ j ∧ j < idx := by
            apply hbnd
            apply List.mem_append_left
            exact hperm.symm.subset (List.mem_cons_self j _)
          have hndA : (j :: (stackIdxs (setStack st t tl) ++ pairIdxs ps)).Nodup :=
            hpermA.nodup hnd
          have hsub : ∀ x ∈ stackIdxs (setStack st t tl) ++ pairIdxs ps,
              lo ≤ x ∧ x < idx := by
            intro x hx
            exact hbnd x (hpermA.symm.subset (List.mem_cons_of_mem j hx))
          -- the new configuration after recording the pair (j, idx)
          have hpermB : stackIdxs (setStack st t tl) ++ pairIdxs (ps ++ [(j, idx)]) ~
              j :: idx :: (stackIdxs (setStack st t tl) ++ pairIdxs ps) := by
            rw [pairIdxs_append]
            calc stackIdxs (setStack st t tl) ++ (pairIdxs ps ++ pairIdxs [(j, idx)])
                = (stackIdxs (setStack st t tl) ++ pairIdxs ps) ++ [j, idx] := by
                  rw [List.append_assoc]; rfl
              _ ~ [j, idx] ++ (stackIdxs (setStack st t tl) ++ pairIdxs ps) :=
                  List.perm_append_comm
              _ = j :: idx :: (stackIdxs (setStack st t tl) ++ pairIdxs ps) := rfl
          have hndB : (stackIdxs (setStack st t tl) ++ pairIdxs (ps ++ [(j, idx)])).Nodup := by
            apply hpermB.symm.nodup
            rw [List.nodup_cons, List.nodup_cons]
            refine ⟨?_, ?_, (List.nodup_cons.mp hndA).2⟩
            · intro hmem
              rcases List.mem_cons.mp hmem with h1 | h1
              · omega
              · exact (List.nodup_cons.mp hndA).1 h1
            · intro hmem
              have := hsub idx hmem
              omega
          have ih := parse_loop_inv lo rest (idx + 1) (setStack st t tl)
            (ps ++ [(j, idx)]) pr st' h
            (by omega)
            (by
              intro x hx
              have hx' := hpermB.subset hx
              rcases List.mem_cons.mp hx' with rfl | hx''
              · omega
              rcases List.mem_cons.mp hx'' with rfl | h1
              · omega
              · have := hsub x h1; omega)
            hndB
            (by
              intro p hp
              rcases List.mem_append.mp hp with h1 | h1
              · exact hord p h1
              · rcases List.mem_singleton.mp h1 with rfl
                exact hj.2)
          refine ⟨?_, ih.2.1, ih.2.2⟩
          intro x hx
          have := ih.1 x hx
          simp only [List.length_cons] at *
          push_cast at *
          omega
    · rw [parse_loop_cons_open ho] at h
      have hperm : stackIdxs (pushStack st t idx) ~ idx :: stackIdxs st :=
        stackIdxs_push st t idx
      have hpermA : stackIdxs (pushStack st t idx) ++ pairIdxs ps ~
          idx :: (stackIdxs st ++ pairIdxs ps) :=
        List.Perm.append_right (pairIdxs ps) hperm
      have hndA : (stackIdxs (pushStack st t idx) ++ pairIdxs ps).Nodup := by
        apply hpermA.symm.nodup
        rw [List.nodup_cons]
        refine ⟨?_, hnd⟩
        intro hmem
        have := hbnd idx hmem
        omega
      have ih := parse_loop_inv lo rest (idx + 1) (pushStack st t idx) ps pr st' h
        (by omega)
        (by
          intro x hx
          have hx' := hpermA.subset hx
          rcases List.mem_cons.mp hx' with rfl | h1
          · omega
          · have := hbnd x h1; omega)
        hndA hord
      refine ⟨?_, ih.2.1, ih.2.2⟩
      intro x hx
      have := ih.1 x hx
      simp only [List.length_cons] at *
      push_cast at *
      omega

end DotBracket

namespace DotBracket

open List

/-- Consequences of a successful parse: bounds, order and distinctness of
the returned (sorted) pair list. -/
lemma parse_dotbracket_ok_props {s : String} {start : Int} {ps : List (Int × Int)}
    (h : parse_dotbracket s start = .ok ps) :
    (∀ p ∈ ps, start ≤ p.1 ∧ p.1 < p.2 ∧
      p.2 < start + ((filterDB (pyStrip s.data)).length : Int)) ∧
    (pairIdxs ps).Nodup ∧
    ps.Pairwise pairLE := by
  obtain ⟨pairs, stks, hp, hf, hsort⟩ := parse_dotbracket_ok_elim h
  have inv := parse_loop_inv start (filterDB (pyStrip s.data)) start emptyStacks [] pairs stks hp
    (le_refl start)
    (by simp [stackIdxs_empty, pairIdxs])
    (by simp [stackIdxs_empty, pairIdxs])
    (by simp)
  obtain ⟨hbnd, hnd, hord⟩ := inv
  have hperm : ps.Perm pairs := by
    rw [hsort]; exact List.perm_insertionSort pairLE pairs
  refine ⟨?_, ?_, ?_⟩
  · intro p hp'
    have hpmem : p ∈ pairs := hperm.subset hp'
    have h1 : p.1 ∈ stackIdxs stks ++ pairIdxs pairs :=
      List.mem_append_right _ (List.mem_flatMap_of_mem hpmem (by simp))
    have h2 : p.2 ∈ stackIdxs stks ++ pairIdxs pairs :=
      List.mem_append_right _ (List.mem_flatMap_of_mem hpmem (by simp))
    exact ⟨(hbnd _ h1).1, hord p hpmem, (hbnd _ h2).2⟩
  · have hndp : (pairIdxs pairs).Nodup := hnd.of_append_right
    have hpi : (pairIdxs ps).Perm (pairIdxs pairs) :=
      List.Perm.flatMap_right _ hperm
    exact hpi.symm.nodup hndp
  · rw [hsort]
    exact List.sorted_insertionSort pairLE pairs

/-- The first components, as a sublist of all indices of a pair list. -/
lemma map_fst_sublist : ∀ ps : List (Int × Int),
    (ps.map Prod.fst).Sublist (pairIdxs ps)
  | [] => List.Sublist.refl _
  | p :: rest => by
    simp only [List.map_cons, pairIdxs, List.flatMap_cons]
    exact ((map_fst_sublist rest).cons _).cons₂ _

/-- **C7** — On success, the returned pair list is strictly increasing in
the first index of each pair (hence sorted in non-decreasing order). -/
theorem C7_sorted_by_first (s : String) (start : Int) (ps : List (Int × Int))
    (h : parse_dotbracket s start = .ok ps) :
    ps.Pairwise (fun a b => a.1 < b.1) := by
  obtain ⟨_, hnd, hsorted⟩ := parse_dotbracket_ok_props h
  have hndf : (ps.map Prod.fst).Nodup := (map_fst_sublist ps).nodup hnd
  have hne : ps.Pairwise (fun a b => a.1 ≠ b.1) := List.pairwise_map.mp hndf
  refine (hsorted.and hne).imp ?_
  intro a b hab
  rcases hab with ⟨hle, hne'⟩
  rcases hle with h1 | ⟨h1, _⟩
  · exact h1
  · exact absurd h1 hne'

/-- Witness for C7 at `"((.))"`. -/
theorem C7_sorted_by_first_witness :
    List.Pairwise (fun a b : Int × Int => a.1 < b.1) [(1, 5), (2, 4)] :=
  C7_sorted_by_first "((.))" 1 [(1, 5), (2, 4)] (by decide)

/-- **C8** — Every returned pair `(i, j)` satisfies `i < j`, with both
residue numbers inside `[start_resnum, start_resnum + L - 1]` for `L` the
length of the filtered input. -/
theorem C8_pair_bounds (s : String) (start : Int) (ps : List (Int × Int))
    (h : parse_dotbracket s start = .ok ps) :
    ∀ p ∈ ps, start ≤ p.1 ∧ p.1 < p.2 ∧
      p.2 ≤ start + ((filterDB (pyStrip s.data)).length : Int) - 1 := by
  intro p hp
  have := (parse_dotbracket_ok_props h).1 p hp
  exact ⟨this.1, this.2.1, by omega⟩

/-- Witness for C8 at `"((.))"` and the pair `(1, 5)`. -/
theorem C8_pair_bounds_witness :
    (1 : Int) ≤ (1 : Int) ∧ (1 : Int) < (5 : Int) ∧
      (5 : Int) ≤ 1 + ((filterDB (pyStrip "((.))".data)).length : Int) - 1 :=
  C8_pair_bounds "((.))" 1 [(1, 5), (2, 4)] (by decide) (1, 5) (by decide)

/-- **C10** — No residue index is used twice: the flattened index list of
the returned pairs has no duplicates. -/
theorem C10_indices_nodup (s : String) (start : Int) (ps : List (Int × Int))
    (h : parse_dotbracket s start = .ok ps) :
    (pairIdxs ps).Nodup :=
  (parse_dotbracket_ok_props h).2.1

/-- Witness for C10 at `"((.))"`. -/
theorem C10_indices_nodup_witness :
    (pairIdxs [((1 : Int), (5 : Int)), (2, 4)]).Nodup :=
  C10_indices_nodup "((.))" 1 [(1, 5), (2, 4)] (by decide)

end DotBracket

namespace DotBracket

/-! ### Saenger table (claim C4) -/

lemma finset_pair_eq_pair_iff {a b c d : Char} :
    ({a, b} : Finset Char) = {c, d} ↔ (a = c ∧ b = d) ∨ (a = d ∧ b = c) := by
  rw [← Finset.coe_inj]
  simp only [Finset.coe_insert, Finset.coe_singleton]
  exact Set.pair_eq_pair_iff


lemma infer_saenger_pair_comm (b1 b2 : Char) :
    infer_saenger_pair b1 b2 = infer_saenger_pair b2 b1 := by
  unfold infer_saenger_pair
  rw [Finset.pair_comm (normBase b1) (normBase b2)]

/-- **C4** — The Saenger lookup is a pure function of the unordered pair
of normalised bases (case-insensitive, `T` read as `U`): `{G,C} → 19`,
`{A,U} → 20`, `{G,U} → 28`, anything else → `none`, and it is symmetric
in its two arguments. -/
theorem C4_saenger_table (b1 b2 : Char) :
    (infer_saenger_pair b1 b2 = some 19 ↔ usPair b1 b2 'G' 'C') ∧
    (infer_saenger_pair b1 b2 = some 20 ↔ usPair b1 b2 'A' 'U') ∧
    (infer_saenger_pair b1 b2 = some 28 ↔ usPair b1 b2 'G' 'U') ∧
    (¬ usPair b1 b2 'G' 'C' → ¬ usPair b1 b2 'A' 'U' → ¬ usPair b1 b2 'G' 'U' →
      infer_saenger_pair b1 b2 = none) ∧
    infer_saenger_pair b1 b2 = infer_saenger_pair b2 b1 := by
  have key : ∀ x y : Char, usPair b1 b2 x y ↔
      ({normBase b1, normBase b2} : Finset Char) = {x, y} :=
    fun x y => Iff.symm finset_pair_eq_pair_iff
  have d1 : ({'G', 'C'} : Finset Char) ≠ {'A', 'U'} := by decide
  have d2 : ({'G', 'C'} : Finset Char) ≠ {'G', 'U'} := by decide
  have d3 : ({'A', 'U'} : Finset Char) ≠ {'G', 'C'} := by decide
  have d4 : ({'A', 'U'} : Finset Char) ≠ {'G', 'U'} := by decide
  have d5 : ({'G', 'U'} : Finset Char) ≠ {'G', 'C'} := by decide
  have d6 : ({'G', 'U'} : Finset Char) ≠ {'A', 'U'} := by decide
  refine ⟨?_, ?_, ?_, ?_, infer_saenger_pair_comm b1 b2⟩ <;>
    simp only [key] <;>
    unfold infer_saenger_pair <;>
    split_ifs with h1 h2 h3 <;>
    simp_all

end DotBracket

namespace DotBracket

/-! ### Soft failure handling in Saenger inference (claim C5) -/

/-- The class list is the per-pair class of every input pair, in order:
every pair is processed, none is skipped and nothing is raised. -/
lemma infer_saenger_for_pairs_classes :
    ∀ (pairs : List (Int × Int)) (seq : List Char) (start : Int),
      (infer_saenger_for_pairs pairs seq start).1 = pairs.map (pairClass seq start)
  | [], _, _ => rfl
  | p :: rest, seq, start => by
    have ih := infer_saenger_for_pairs_classes rest seq start
    unfold infer_saenger_for_pairs pairClass
    by_cases h : InRange seq start p <;> simp [h, ih, pairClass]

/-- Every soft failure leaves its warning in the warning list. -/
lemma infer_saenger_for_pairs_warns :
    ∀ (pairs : List (Int × Int)) (seq : List Char) (start : Int),
      ∀ p ∈ pairs,
        (¬ InRange seq start p →
          Warning.outOfRange p.1 p.2 seq.length ∈
            (infer_saenger_for_pairs pairs seq start).2) ∧
        (InRange seq start p →
          infer_saenger_pair (seq.getD (p.1 - start).toNat 'X')
              (seq.getD (p.2 - start).toNat 'X') = none →
          Warning.cannotInfer (seq.getD (p.1 - start).toNat 'X')
              (seq.getD (p.2 - start).toNat 'X') ∈
            (infer_saenger_for_pairs pairs seq start).2)
  | [], _, _ => by intro p hp; cases hp
  | q :: rest, seq, start => by
    intro p hp
    rcases List.mem_cons.mp hp with rfl | hmem
    · constructor
      · intro hnr
        unfold infer_saenger_for_pairs
        rw [if_neg hnr]
        exact List.mem_cons_self _ _
      · intro hr hnone
        unfold infer_saenger_for_pairs
        rw [if_pos hr]
        simp only [hnone]
        apply List.mem_append_left
        exact List.mem_cons_self _ _
    · have ih := infer_saenger_for_pairs_warns rest seq start p hmem
      constructor
      · intro hnr
        unfold infer_saenger_for_pairs
        by_cases hq : InRange seq start q
        · rw [if_pos hq]
          exact List.mem_append_right _ (ih.1 hnr)
        · rw [if_neg hq]
          exact List.mem_cons_of_mem _ (ih.1 hnr)
      · intro hr hnone
        unfold infer_saenger_for_pairs
        by_cases hq : InRange seq start q
        · rw [if_pos hq]
          exact List.mem_append_right _ (ih.2 hr hnone)
        · rw [if_neg hq]
          exact List.mem_cons_of_mem _ (ih.2 hr hnone)

/-- **C5** — Soft failures never abort the run: the class list records one
(possibly null) class per input pair in order; an out-of-range pair gets a
null class and an out-of-range warning; an in-range pair whose bases have
no canonical class gets a null class and a cannot-infer warning; all
remaining pairs are still processed. -/
theorem C5_soft_failures (pairs : List (Int × Int)) (seq : List Char) (start : Int) :
    ((infer_saenger_for_pairs pairs seq start).1 = pairs.map (pairClass seq start)) ∧
    (∀ p ∈ pairs, ¬ InRange seq start p →
      pairClass seq start p = none ∧
      Warning.outOfRange p.1 p.2 seq.length ∈ (infer_saenger_for_pairs pairs seq start).2) ∧
    (∀ p ∈ pairs, InRange seq start p → pairClass seq start p = none →
      Warning.cannotInfer (seq.getD (p.1 - start).toNat 'X')
          (seq.getD (p.2 - start).toNat 'X') ∈
        (infer_saenger_for_pairs pairs seq start).2) := by
  refine ⟨infer_saenger_for_pairs_classes pairs seq start, ?_, ?_⟩
  · intro p hp hnr
    refine ⟨by simp [pairClass, hnr], (infer_saenger_for_pairs_warns pairs seq start p hp).1 hnr⟩
  · intro p hp hr hnone
    have hnone' : infer_saenger_pair (seq.getD (p.1 - start).toNat 'X')
        (seq.getD (p.2 - start).toNat 'X') = none := by
      simpa [pairClass, hr] using hnone
    exact (infer_saenger_for_pairs_warns pairs seq start p hp).2 hr hnone'

/-- Witness for C5: sequence `AG`, one in-range non-canonical pair `(1,2)`
and one out-of-range pair `(0,9)`. -/
theorem C5_soft_failures_witness :
    pairClass ['A', 'G'] 1 ((0 : Int), (9 : Int)) = none ∧
    Warning.outOfRange 0 9 2 ∈
      (infer_saenger_for_pairs [(1, 2), (0, 9)] ['A', 'G'] 1).2 ∧
    Warning.cannotInfer 'A' 'G' ∈
      (infer_saenger_for_pairs [(1, 2), (0, 9)] ['A', 'G'] 1).2 := by
  have h := C5_soft_failures [(1, 2), (0, 9)] ['A', 'G'] 1
  refine ⟨?_, ?_, ?_⟩
  · exact (h.2.1 (0, 9) (by decide) (by decide)).1
  · exact (h.2.1 (0, 9) (by decide) (by decide)).2
  · exact h.2.2 (1, 2) (by decide) (by decide) (by decide)

end DotBracket

namespace DotBracket

/-! ### Override semantics of the Phenix renderer (claim C6) -/

/-- With an override in force, the body of the rendered block is exactly
one `base_pair` block per pair, each carrying the override as its
`saenger_class`, whatever the inferred class list says. -/
lemma format_phenix_loop_override :
    ∀ (pairs : List (Int × Int)) (chain : String) (slist : List (Option Nat))
      (o : String) (idx : Nat),
      idx + pairs.length ≤ slist.length →
      format_phenix_loop chain pairs idx slist (some o) =
        some (pairs.flatMap (fun p => phenix_block chain p.1 p.2 (some (.str o))))
  | [], chain, slist, o, idx, _ => rfl
  | (i, j) :: rest, chain, slist, o, idx, h => by
    have hlt : idx < slist.length := by
      simp only [List.length_cons] at h
      omega
    have hget : ∃ s0, slist.get? idx = some s0 := by
      rw [List.get?_eq_getElem?]
      exact ⟨slist[idx], by simp [hlt]⟩
    obtain ⟨s0, hs0⟩ := hget
    have ih := format_phenix_loop_override rest chain slist o (idx + 1)
      (by simp only [List.length_cons] at h; omega)
    unfold format_phenix_loop phenixClassAt
    rw [hs0]
    simp only [ih, List.flatMap_cons]

/-- **C6** — When a Saenger override is supplied (and the class list is
long enough for Python's indexing not to fail), every `base_pair` block of
the rendered output carries a `saenger_class` line equal to the override,
replacing whatever was inferred. -/
theorem C6_override_forces_class (pairs : List (Int × Int)) (chain : String)
    (slist : List (Option Nat)) (o : String)
    (h : pairs.length ≤ slist.length) :
    (format_phenix pairs chain slist (some o) =
      some (String.intercalate "\n" (phenixHeader ++
        pairs.flatMap (fun p => phenix_block chain p.1 p.2 (some (.str o))) ++
        phenixFooter))) ∧
    (∀ p ∈ pairs,
      ("        saenger_class = " ++ o) ∈ phenix_block chain p.1 p.2 (some (.str o))) := by
  constructor
  · unfold format_phenix
    rw [format_phenix_loop_override pairs chain slist o 0 (by omega)]
  · intro p _
    simp [phenix_block, svalStr]

/-- Witness for C6: one pair, a null inferred class, override `"19"`. -/
theorem C6_override_forces_class_witness :
    format_phenix [((1 : Int), (5 : Int))] "A" [none] (some "19") =
      some (String.intercalate "\n" (phenixHeader ++
        ([((1 : Int), (5 : Int))].flatMap
          (fun p => phenix_block "A" p.1 p.2 (some (.str "19")))) ++
        phenixFooter)) :=
  (C6_override_forces_class [(1, 5)] "A" [none] "19" (by decide)).1

/-- Witness for C4 at concrete letters: lowercase `g` with `C` gives 19,
and the non-canonical pair `A`/`G` gives no class. -/
theorem C4_saenger_table_witness :
    infer_saenger_pair 'g' 'C' = some 19 ∧ infer_saenger_pair 'A' 'G' = none :=
  ⟨(C4_saenger_table 'g' 'C').1.mpr (Or.inl (by decide)),
   (C4_saenger_table 'A' 'G').2.2.2.1 (by decide) (by decide) (by decide)⟩

end DotBracket
